import Mathlib

/-!
Verification of the Asteroids console game (src/main.cc) against its
natural-language specification.

Modelling conventions:
* IEEE floats are idealized as rationals (`ℚ`); the game state (positions,
  velocities, sizes) is therefore exact.
* `sqrtf(d2) < r` (with `d2 = dx*dx + dy*dy ≥ 0`) is stated in the equivalent
  square form `0 < r ∧ d2 < r * r`, which is decidable over `ℚ`.  The
  equivalence with the literal square-root form over `ℝ` is proved in
  `IsCirclesCollided_iff_dist`.
* The trigonometric quantities produced for asteroid fission
  (`atan2f`, `cosf`, `sinf` in lines 257-263 of main.cc) are real numbers;
  they are modelled faithfully over `ℝ` by `splitChildData`.  Because those
  four vectors never influence the control flow of the scans (children are
  appended past the live scan bound), the executable `ℚ` model receives them
  through an abstract parameter `sv : Vec2 → ℤ → SplitKin`, and all scan-level
  theorems are proved for every such parameter.
* The C++ loops that erase from `std::vector` mid-iteration are modelled by
  structural recursion on an explicit fuel that equals the loop bound, with
  every element access re-reading the current list (this reproduces the
  reference-into-the-buffer semantics of `auto &a = vecAsteroids[i]` after an
  `erase`, which shifts the suffix left without reallocating).
-/

namespace Asteroids

/-- Vector2D of main.cc (lines 12-80): a 2D vector with two scalar
coordinates, here idealized as rationals. -/
structure Vec2 where
  x : ℚ
  y : ℚ
deriving DecidableEq, Repr, Inhabited

/-- componentwise addition, `Vector2D::operator+`. -/
instance : Add Vec2 := ⟨fun a b => ⟨a.x + b.x, a.y + b.y⟩⟩

/-- componentwise subtraction, `Vector2D::operator-`. -/
instance : Sub Vec2 := ⟨fun a b => ⟨a.x - b.x, a.y - b.y⟩⟩

/-- scalar multiple, `Vector2D::operator*(float)` (used as `vel * dt`). -/
instance : SMul ℚ Vec2 := ⟨fun q v => ⟨q * v.x, q * v.y⟩⟩

/-- Transform of main.cc (lines 82-87): position, velocity, integer size and
rotation angle of one body.  The extra `tag` field is ghost instrumentation
(never read by the dynamics) used only to name an asteroid across the
index shifts caused by `vector::erase`. -/
structure Transform where
  pos : Vec2
  vel : Vec2
  nSize : ℤ
  rotateAngle : ℚ
  tag : ℕ := 0
deriving DecidableEq, Repr, Inhabited

/-- constant `asteroidSizeMin` (main.cc line 93). -/
def asteroidSizeMin : ℤ := 8

/-- constant `asteroidSizeMax` (main.cc line 94). -/
def asteroidSizeMax : ℤ := 30

/-- constant `astroidSplitSpeed` (main.cc line 95, spelling as in the source). -/
def astroidSplitSpeed : ℚ := 10

/-- constant `bulletSpeed` (main.cc line 89). -/
def bulletSpeed : ℚ := 50

/-- `static_cast<int>` applied to a (real-valued) expression: truncation
toward zero. -/
def truncQ (q : ℚ) : ℤ := if 0 ≤ q then ⌊q⌋ else ⌈q⌉

/-- IsCirclesCollided (main.cc lines 336-341): the source computes
`sqrtf(dx*dx + dy*dy) < r1 + r2`.  Since `dx*dx + dy*dy ≥ 0`, this holds iff
`0 < r1 + r2` and `dx*dx + dy*dy < (r1+r2)*(r1+r2)`; the condition is stated
in that square form to stay decidable over `ℚ`.  `IsCirclesCollided_iff_dist`
below proves the equivalence with the literal square-root form. -/
def IsCirclesCollided (o1 : Vec2) (r1 : ℚ) (o2 : Vec2) (r2 : ℚ) : Bool :=
  decide (0 < r1 + r2 ∧
    (o1.x - o2.x) * (o1.x - o2.x) + (o1.y - o2.y) * (o1.y - o2.y)
      < (r1 + r2) * (r1 + r2))

/-- IsPointInsideCircle (main.cc line 334): the circle test with radius 0 on
the point side. -/
def IsPointInsideCircle (p : Vec2) (o : Vec2) (radius : ℚ) : Bool :=
  IsCirclesCollided p 0 o radius

/-- Euclidean distance between two centers, as the source's
`sqrtf(dx*dx + dy*dy)` computes it (over `ℝ`). -/
noncomputable def centerDist (o1 o2 : Vec2) : ℝ :=
  Real.sqrt (((o1.x - o2.x : ℚ) : ℝ) * ((o1.x - o2.x : ℚ) : ℝ)
    + ((o1.y - o2.y : ℚ) : ℝ) * ((o1.y - o2.y : ℚ) : ℝ))

/-- WrapCoordinates, one axis (main.cc lines 303-312): add the extent once if
negative, then subtract it once if at or above the extent (two independent
`if`s, applied in this order; not a modulo). -/
def wrapAxis (extent c : ℚ) : ℚ :=
  let c1 := if c < 0 then c + extent else c
  if extent ≤ c1 then c1 - extent else c1

/-- WrapCoordinates (main.cc lines 303-312): each axis wrapped independently
against its own extent. -/
def WrapCoordinates (w h : ℚ) (v : Vec2) : Vec2 :=
  ⟨wrapAxis w v.x, wrapAxis h v.y⟩

/-- Resolution of a detected asteroid-asteroid collision between the bodies at
slots `i` and `j` (the body of the `if` at main.cc lines 224-233, without the
loop bookkeeping): the member with strictly smaller `nSize` is designated
absorbed (ties go to `j`, because the source tests `a.nSize < a2.nSize`), the
survivor's velocity receives the momentum blend
`larger.vel += (smaller.nSize / larger.nSize) * (smaller.vel - larger.vel)`,
and the absorbed slot is erased from the population. -/
def resolvePair (asts : List Transform) (i j : ℕ) : List Transform :=
  let a := asts.getD i default
  let a2 := asts.getD j default
  let smallerIdx := if a.nSize < a2.nSize then i else j
  let largerIdx := if a.nSize < a2.nSize then j else i
  let s := asts.getD smallerIdx default
  let l := asts.getD largerIdx default
  (asts.set largerIdx
    { l with vel := l.vel + ((s.nSize : ℚ) / (l.nSize : ℚ)) • (s.vel - l.vel) }).eraseIdx
    smallerIdx

/-- Inner pairwise loop (main.cc lines 222-235), scanning slots
`j = i+1, i+2, ...` against slot `i` while `j < loopSize`.  Every slot access
re-reads the current list, matching the C++ references into the vector's
buffer across an `erase`.  On a collision the absorbed slot is erased and
`loopSize` decremented and then — exactly as in the source, which has no
index compensation — `j` still advances.  `tested` accumulates the ghost tags
of every pair submitted to the collision test.  `fuel` bounds the recursion;
every call below passes `fuel ≥ loopSize - j`, so the guard, not the fuel,
ends the loop. -/
def innerScan (fuel : ℕ) (i j loopSize : ℕ) (asts : List Transform)
    (tested : List (ℕ × ℕ)) : List Transform × ℕ × List (ℕ × ℕ) :=
  match fuel with
  | 0 => (asts, loopSize, tested)
  | fuel + 1 =>
    if loopSize ≤ j then (asts, loopSize, tested)
    else
      let a := asts.getD i default
      let a2 := asts.getD j default
      let tested2 := tested ++ [(a.tag, a2.tag)]
      if IsCirclesCollided a.pos (a.nSize : ℚ) a2.pos (a2.nSize : ℚ) then
        innerScan fuel i (j + 1) (loopSize - 1) (resolvePair asts i j) tested2
      else
        innerScan fuel i (j + 1) loopSize asts tested2

/-- Outer per-asteroid loop (main.cc lines 214-236): integrate and wrap the
body at slot `i`, then run the inner pairwise scan from `j = i + 1` under the
live bound `loopSize`, and continue with the bound the inner scan returns. -/
def outerScan (w h dt : ℚ) (fuel : ℕ) (i loopSize : ℕ) (asts : List Transform)
    (tested : List (ℕ × ℕ)) : List Transform × List (ℕ × ℕ) :=
  match fuel with
  | 0 => (asts, tested)
  | fuel + 1 =>
    if loopSize ≤ i then (asts, tested)
    else
      let a := asts.getD i default
      let asts2 := asts.set i { a with pos := WrapCoordinates w h (a.pos + dt • a.vel) }
      let r := innerScan loopSize i (i + 1) loopSize asts2 tested
      outerScan w h dt fuel (i + 1) r.2.1 r.1 r.2.2

/-- Per-frame asteroid update and pairwise collision scan (main.cc lines
214-236): `loopSize` starts at the current population size (`int loopSize =
vecAsteroids.size()`), and the result carries the final population together
with the list of tested pairs (by ghost tag). -/
def asteroidFrame (w h dt : ℚ) (asts : List Transform) :
    List Transform × List (ℕ × ℕ) :=
  outerScan w h dt asts.length 0 asts.length asts []

/-- Kinematic data of one asteroid fission: the four vectors computed by the
trigonometric block at main.cc lines 257-263 (two launch velocities at ±90°
from the bullet's velocity angle, and two center offsets in those same
directions).  The executable model receives them through a parameter
`sv : Vec2 → ℤ → SplitKin` of the bullet velocity and the parent size,
because the trigonometric values are not representable over `ℚ`; their
faithful real-valued definition is `splitChildData` below, and the fission
theorem ties the two together.  No scan-level control flow depends on these
four vectors (the children are appended past the live scan bound). -/
structure SplitKin where
  v1 : Vec2
  v2 : Vec2
  offset1 : Vec2
  offset2 : Vec2
deriving DecidableEq, Repr, Inhabited

/-- Body of the bullet-hit branch (main.cc lines 248-272, without the loop
bookkeeping): relocate the bullet off-field (`b.pos.x = -100`); if the struck
asteroid's size is at or above `asteroidSizeMin`, append two children of size
`static_cast<int>(a.nSize / 2. + 1)`, positioned at the parent's center plus
the two offsets and inheriting the parent's velocity added to the two launch
velocities; then erase the struck slot.  Children carry ghost tag 0 (the tag
is instrumentation only). -/
def applyHit (sv : Vec2 → ℤ → SplitKin) (b : Transform) (asts : List Transform)
    (i : ℕ) : Transform × List Transform :=
  let a := asts.getD i default
  let b2 := { b with pos := ⟨-100, b.pos.y⟩ }
  let k := sv b.vel a.nSize
  let asts2 :=
    if asteroidSizeMin ≤ a.nSize then
      asts ++
        [{ pos := a.pos + k.offset1, vel := k.v1 + a.vel,
           nSize := truncQ ((a.nSize : ℚ) / 2 + 1), rotateAngle := 0, tag := 0 },
         { pos := a.pos + k.offset2, vel := k.v2 + a.vel,
           nSize := truncQ ((a.nSize : ℚ) / 2 + 1), rotateAngle := 0, tag := 0 }]
    else asts
  (b2, asts2.eraseIdx i)

/-- Bullet-versus-asteroid scan for one bullet (main.cc lines 243-274): test
asteroids in population order below `checkSize = vecAsteroids.size()`; on the
first hit apply the hit branch and break.  The returned flag records whether
a hit occurred.  Every call below passes `fuel ≥ checkSize - i`, so the
guard, not the fuel, ends the loop. -/
def bulletScan (sv : Vec2 → ℤ → SplitKin) (fuel : ℕ) (i checkSize : ℕ)
    (b : Transform) (asts : List Transform) : Transform × List Transform × Bool :=
  match fuel with
  | 0 => (b, asts, false)
  | fuel + 1 =>
    if checkSize ≤ i then (b, asts, false)
    else
      let a := asts.getD i default
      if IsPointInsideCircle b.pos a.pos (a.nSize : ℚ) then
        let r := applyHit sv b asts i
        (r.1, r.2, true)
      else
        bulletScan sv fuel (i + 1) checkSize b asts

/-- One bullet's full resolution against the current asteroid population
(main.cc line 244 fixes `checkSize` to the population size at this bullet's
turn). -/
def bulletResolve (sv : Vec2 → ℤ → SplitKin) (b : Transform)
    (asts : List Transform) : Transform × List Transform × Bool :=
  bulletScan sv asts.length 0 asts.length b asts

/-- Log entry for one bullet in one frame: the bullet as it entered the
frame, the bullet after integration and a possible hit relocation, and
whether it hit an asteroid. -/
structure BulletLog where
  orig : Transform
  proc : Transform
  hit : Bool
deriving DecidableEq, Repr, Inhabited

/-- Bullet phase of a frame before the prune (main.cc lines 239-275): each
bullet in order is integrated (`pos += vel * dt`, never wrapped) and resolved
against the evolving asteroid population. -/
def bulletsPass (sv : Vec2 → ℤ → SplitKin) (dt : ℚ) (bs asts : List Transform) :
    List BulletLog × List Transform :=
  match bs with
  | [] => ([], asts)
  | b :: rest =>
    let b2 := { b with pos := b.pos + dt • b.vel }
    let r := bulletResolve sv b2 asts
    let r2 := bulletsPass sv dt rest r.2.1
    ({ orig := b, proc := r.1, hit := r.2.2 } :: r2.1, r2.2)

/-- Off-screen predicate of the bullet prune (main.cc lines 279-281). -/
def bulletOffScreen (w h : ℚ) (b : Transform) : Bool :=
  decide (b.pos.x < 0 ∨ w ≤ b.pos.x ∨ b.pos.y < 0 ∨ h ≤ b.pos.y)

/-- Bullet prune (main.cc lines 277-284): `std::remove_if` plus `erase`
keeps, in order, exactly the bullets that are on screen (the surrounding
`if (vecBullets.size())` guard does not change this on an empty list). -/
def pruneBullets (w h : ℚ) (bs : List Transform) : List Transform :=
  bs.filter (fun b => ! bulletOffScreen w h b)

/-- The complete bullet phase of one frame, main.cc lines 239-284: integrate
and resolve every bullet, then prune the off-screen ones.  Returns the
surviving bullets and the final asteroid population. -/
def bulletFrame (sv : Vec2 → ℤ → SplitKin) (w h dt : ℚ) (bs asts : List Transform) :
    List Transform × List Transform :=
  let r := bulletsPass sv dt bs asts
  (pruneBullets w h (r.1.map BulletLog.proc), r.2)

/-- Size of a seeded asteroid (main.cc line 164):
`static_cast<int>(r * (asteroidSizeMax - asteroidSizeMin)) + asteroidSizeMin`
with `r` a draw from `[0, 1)`. -/
def seedSize (r : ℚ) : ℤ :=
  truncQ (r * ((asteroidSizeMax - asteroidSizeMin : ℤ) : ℚ)) + asteroidSizeMin

/-- Lower-bound predicate used for the size invariant: every member of the
population has size at least 5. -/
def sizeLB (asts : List Transform) : Prop := ∀ a ∈ asts, 5 ≤ a.nSize

/-- Asteroid populations reachable by the game: a population seeded by
`resetGame` (main.cc lines 154-171; positions and velocities are arbitrary
here because only the size distribution matters to any claim about sizes),
or the result of a per-frame asteroid scan, or the asteroid side of a
per-frame bullet phase. -/
inductive Reachable : List Transform → Prop where
  | seed (asts : List Transform)
      (h : ∀ a ∈ asts, ∃ r : ℚ, 0 ≤ r ∧ r < 1 ∧ a.nSize = seedSize r) :
      Reachable asts
  | scan (w h dt : ℚ) (asts : List Transform) (hr : Reachable asts) :
      Reachable (asteroidFrame w h dt asts).1
  | shoot (sv : Vec2 → ℤ → SplitKin) (w h dt : ℚ) (bs asts : List Transform)
      (hr : Reachable asts) : Reachable (bulletFrame sv w h dt bs asts).2

/-- Angle of a vector as the source's `getAngle` computes it (main.cc line
67): `atan2f(-y, x)`, modelled as the argument of the complex number
`x + (-y) i` — the standard mathematical atan2, matching `atan2f(0, 0) = 0`
through `Complex.arg 0 = 0`. -/
noncomputable def getAngleR (vx vy : ℝ) : ℝ := Complex.arg ⟨vx, -vy⟩

/-- angleToVector (main.cc lines 122-125) over `ℝ`:
`(cosf(angle) * mult, -sinf(angle) * mult)`. -/
noncomputable def angleToVectorR (angle mult : ℝ) : ℝ × ℝ :=
  (Real.cos angle * mult, -(Real.sin angle * mult))

/-- Real-valued kinematics of one fission, transliterating main.cc lines
257-263: `divAngle = b.vel.getAngle()`, children launched by
`angleToVector(divAngle ± 0.5π, astroidSplitSpeed)` and offset by
`angleToVector(divAngle ± 0.5π, a.nSize / 2. + 1)`. -/
structure SplitKinR where
  v1 : ℝ × ℝ
  v2 : ℝ × ℝ
  offset1 : ℝ × ℝ
  offset2 : ℝ × ℝ

/-- the trigonometric block of the split branch (main.cc lines 257-263),
with `(vx, vy)` the bullet's velocity and `sz` the struck asteroid's size. -/
noncomputable def splitChildData (vx vy : ℝ) (sz : ℤ) : SplitKinR :=
  let divAngle := getAngleR vx vy
  let angle1 := divAngle + 0.5 * Real.pi
  let angle2 := divAngle - 0.5 * Real.pi
  ⟨angleToVectorR angle1 ((astroidSplitSpeed : ℚ) : ℝ),
   angleToVectorR angle2 ((astroidSplitSpeed : ℚ) : ℝ),
   angleToVectorR angle1 ((sz : ℝ) / 2 + 1),
   angleToVectorR angle2 ((sz : ℝ) / 2 + 1)⟩

/-- A trivial split-kinematics parameter (all four vectors zero), used for
concrete scan evaluations in which the children's velocities and offsets are
irrelevant. -/
def svZero : Vec2 → ℤ → SplitKin := fun _ _ => ⟨⟨0, 0⟩, ⟨0, 0⟩, ⟨0, 0⟩, ⟨0, 0⟩⟩

/-- The exact split kinematics of a bullet flying straight up (velocity
`(0, -50)`): `divAngle = π/2`, so the children launch left and right at
speed 10 and the offsets of a size-8 parent are `(∓5, 0)`.
`svUp_eq_splitChildData` proves these are the values `splitChildData`
produces. -/
def svUp : Vec2 → ℤ → SplitKin := fun _ _ => ⟨⟨-10, 0⟩, ⟨10, 0⟩, ⟨-5, 0⟩, ⟨5, 0⟩⟩

theorem Vec2.add_def (a b : Vec2) : a + b = ⟨a.x + b.x, a.y + b.y⟩ := rfl

theorem Vec2.sub_def (a b : Vec2) : a - b = ⟨a.x - b.x, a.y - b.y⟩ := rfl

theorem Vec2.smul_def (q : ℚ) (v : Vec2) : q • v = ⟨q * v.x, q * v.y⟩ := rfl

theorem IsCirclesCollided_iff_dist (o1 : Vec2) (r1 : ℚ) (o2 : Vec2) (r2 : ℚ) :
    IsCirclesCollided o1 r1 o2 r2 = true ↔ centerDist o1 o2 < ((r1 + r2 : ℚ) : ℝ) := by
  unfold IsCirclesCollided centerDist
  rw [decide_eq_true_iff]
  set dx : ℚ := o1.x - o2.x
  set dy : ℚ := o1.y - o2.y
  have hd2 : (0:ℝ) ≤ (dx : ℝ) * (dx : ℝ) + (dy : ℝ) * (dy : ℝ) :=
    add_nonneg (mul_self_nonneg _) (mul_self_nonneg _)
  constructor
  · rintro ⟨hpos, hlt⟩
    have hpos' : (0:ℝ) < ((r1 + r2 : ℚ) : ℝ) := by exact_mod_cast hpos
    have hlt' : (dx : ℝ) * (dx : ℝ) + (dy : ℝ) * (dy : ℝ)
        < ((r1 + r2 : ℚ) : ℝ) * ((r1 + r2 : ℚ) : ℝ) := by exact_mod_cast hlt
    calc Real.sqrt ((dx : ℝ) * (dx : ℝ) + (dy : ℝ) * (dy : ℝ))
        < Real.sqrt (((r1 + r2 : ℚ) : ℝ) * ((r1 + r2 : ℚ) : ℝ)) := by
          exact Real.sqrt_lt_sqrt hd2 hlt'
      _ = ((r1 + r2 : ℚ) : ℝ) := Real.sqrt_mul_self hpos'.le
  · intro h
    have hpos' : (0:ℝ) < ((r1 + r2 : ℚ) : ℝ) :=
      lt_of_le_of_lt (Real.sqrt_nonneg _) h
    have hlt' : (dx : ℝ) * (dx : ℝ) + (dy : ℝ) * (dy : ℝ)
        < ((r1 + r2 : ℚ) : ℝ) * ((r1 + r2 : ℚ) : ℝ) := by
      have := Real.sq_sqrt hd2
      calc (dx : ℝ) * (dx : ℝ) + (dy : ℝ) * (dy : ℝ)
          = Real.sqrt ((dx : ℝ) * (dx : ℝ) + (dy : ℝ) * (dy : ℝ))
            * Real.sqrt ((dx : ℝ) * (dx : ℝ) + (dy : ℝ) * (dy : ℝ)) := by
            rw [Real.mul_self_sqrt hd2]
        _ < ((r1 + r2 : ℚ) : ℝ) * ((r1 + r2 : ℚ) : ℝ) := by
            exact mul_self_lt_mul_self (Real.sqrt_nonneg _) h
    refine ⟨by exact_mod_cast hpos', by exact_mod_cast hlt'⟩

theorem wrapAxis_mem_range (extent c : ℚ) (h0 : -extent ≤ c) (h1 : c < 2 * extent) :
    0 ≤ wrapAxis extent c ∧ wrapAxis extent c < extent := by
  simp only [wrapAxis]
  split_ifs <;> constructor <;> linarith

theorem wrapAxis_of_mem_range (extent c : ℚ) (h0 : 0 ≤ c) (h1 : c < extent) :
    wrapAxis extent c = c := by
  simp only [wrapAxis]
  split_ifs <;> linarith

/-- Claim C7: coordinate wrap acts on each axis independently with a single
correction per axis; for every position with each coordinate in
`[-extent, 2*extent)`, one application of wrap lands in `[0, extent)` and a
second application changes nothing. -/
theorem wrap_range_and_idempotent (w h : ℚ) (v : Vec2)
    (hx0 : -w ≤ v.x) (hx1 : v.x < 2 * w) (hy0 : -h ≤ v.y) (hy1 : v.y < 2 * h) :
    WrapCoordinates w h v = ⟨wrapAxis w v.x, wrapAxis h v.y⟩ ∧
    (0 ≤ (WrapCoordinates w h v).x ∧ (WrapCoordinates w h v).x < w ∧
     0 ≤ (WrapCoordinates w h v).y ∧ (WrapCoordinates w h v).y < h) ∧
    WrapCoordinates w h (WrapCoordinates w h v) = WrapCoordinates w h v := by
  obtain ⟨hx2, hx3⟩ := wrapAxis_mem_range w v.x hx0 hx1
  obtain ⟨hy2, hy3⟩ := wrapAxis_mem_range h v.y hy0 hy1
  refine ⟨rfl, ⟨hx2, hx3, hy2, hy3⟩, ?_⟩
  simp only [WrapCoordinates]
  rw [wrapAxis_of_mem_range w _ hx2 hx3, wrapAxis_of_mem_range h _ hy2 hy3]

/-- Witness for `wrap_range_and_idempotent` at the concrete position
`(-30, 130)` on the 160 by 100 playfield. -/
theorem wrap_range_and_idempotent_witness :
    (-(160:ℚ) ≤ -30 ∧ (-30:ℚ) < 2 * 160 ∧ -(100:ℚ) ≤ 130 ∧ (130:ℚ) < 2 * 100) ∧
    (WrapCoordinates 160 100 ⟨-30, 130⟩ = ⟨wrapAxis 160 (-30), wrapAxis 100 130⟩ ∧
     (0 ≤ (WrapCoordinates 160 100 ⟨-30, 130⟩).x ∧
      (WrapCoordinates 160 100 ⟨-30, 130⟩).x < 160 ∧
      0 ≤ (WrapCoordinates 160 100 ⟨-30, 130⟩).y ∧
      (WrapCoordinates 160 100 ⟨-30, 130⟩).y < 100) ∧
     WrapCoordinates 160 100 (WrapCoordinates 160 100 ⟨-30, 130⟩) =
       WrapCoordinates 160 100 ⟨-30, 130⟩) :=
  ⟨⟨by norm_num, by norm_num, by norm_num, by norm_num⟩,
   wrap_range_and_idempotent 160 100 ⟨-30, 130⟩
     (by norm_num) (by norm_num) (by norm_num) (by norm_num)⟩

/-- Claim C8: the circle test holds iff the Euclidean distance between the
centers is strictly less than the sum of the radii (so exactly touching
circles do not collide), it is symmetric in its two circles for all inputs,
and the point test is the circle test with radius 0 on the point side. -/
theorem circles_collide_characterization :
    (∀ (o1 : Vec2) (r1 : ℚ) (o2 : Vec2) (r2 : ℚ),
      IsCirclesCollided o1 r1 o2 r2 = true ↔ centerDist o1 o2 < ((r1 + r2 : ℚ) : ℝ)) ∧
    (∀ (o1 : Vec2) (r1 : ℚ) (o2 : Vec2) (r2 : ℚ),
      IsCirclesCollided o1 r1 o2 r2 = IsCirclesCollided o2 r2 o1 r1) ∧
    (∀ (p o : Vec2) (radius : ℚ),
      IsPointInsideCircle p o radius = IsCirclesCollided p 0 o radius) := by
  refine ⟨IsCirclesCollided_iff_dist, ?_, fun _ _ _ => rfl⟩
  intro o1 r1 o2 r2
  unfold IsCirclesCollided
  rw [decide_eq_decide]
  constructor <;> rintro ⟨h1, h2⟩ <;> exact ⟨by linarith, by nlinarith⟩

/-- Claim C1 (refuting evaluation): the pairwise scan skips the element that
shifts into an erased slot.  Three asteroids tagged 0, 1, 2, all mutually
overlapping and at rest: the frame scan tests only the pair (0, 1), absorbs
tag 1, and never submits the still-live, still-overlapping pair (0, 2) to the
collision test — the source erases at the inner index and then still
increments `j`, so the shifted-in element is passed over. -/
theorem asteroid_scan_skips_shifted_pair :
    (asteroidFrame 160 100 1
      [⟨⟨50, 50⟩, ⟨0, 0⟩, 10, 0, 0⟩, ⟨⟨50, 50⟩, ⟨0, 0⟩, 6, 0, 1⟩,
       ⟨⟨55, 50⟩, ⟨0, 0⟩, 7, 0, 2⟩]).2 = [(0, 1)] ∧
    ((asteroidFrame 160 100 1
      [⟨⟨50, 50⟩, ⟨0, 0⟩, 10, 0, 0⟩, ⟨⟨50, 50⟩, ⟨0, 0⟩, 6, 0, 1⟩,
       ⟨⟨55, 50⟩, ⟨0, 0⟩, 7, 0, 2⟩]).1).map Transform.tag = [0, 2] ∧
    (IsCirclesCollided
      ((asteroidFrame 160 100 1
        [⟨⟨50, 50⟩, ⟨0, 0⟩, 10, 0, 0⟩, ⟨⟨50, 50⟩, ⟨0, 0⟩, 6, 0, 1⟩,
         ⟨⟨55, 50⟩, ⟨0, 0⟩, 7, 0, 2⟩]).1.getD 0 default).pos
      (((asteroidFrame 160 100 1
        [⟨⟨50, 50⟩, ⟨0, 0⟩, 10, 0, 0⟩, ⟨⟨50, 50⟩, ⟨0, 0⟩, 6, 0, 1⟩,
         ⟨⟨55, 50⟩, ⟨0, 0⟩, 7, 0, 2⟩]).1.getD 0 default).nSize : ℚ)
      ((asteroidFrame 160 100 1
        [⟨⟨50, 50⟩, ⟨0, 0⟩, 10, 0, 0⟩, ⟨⟨50, 50⟩, ⟨0, 0⟩, 6, 0, 1⟩,
         ⟨⟨55, 50⟩, ⟨0, 0⟩, 7, 0, 2⟩]).1.getD 1 default).pos
      (((asteroidFrame 160 100 1
        [⟨⟨50, 50⟩, ⟨0, 0⟩, 10, 0, 0⟩, ⟨⟨50, 50⟩, ⟨0, 0⟩, 6, 0, 1⟩,
         ⟨⟨55, 50⟩, ⟨0, 0⟩, 7, 0, 2⟩]).1.getD 1 default).nSize : ℚ)) = true := by
  norm_num [asteroidFrame, outerScan, innerScan, resolvePair, IsCirclesCollided,
    WrapCoordinates, wrapAxis, Vec2.add_def, Vec2.sub_def, Vec2.smul_def]

/-- Claim C5: when two asteroids of distinct sizes collide, the strictly
smaller one is absorbed (its slot erased, the population shrinking by exactly
one) and the larger one survives, its velocity updated by exactly the
momentum blend `vel += (absorbed.size / survivor.size) * (absorbed.vel -
survivor.vel)`, with position, size, rotation (and ghost tag) untouched. -/
theorem collision_absorbs_smaller (asts : List Transform) (i j : ℕ)
    (hij : i < j) (hj : j < asts.length)
    (hne : (asts.getD i default).nSize ≠ (asts.getD j default).nSize) :
    let ai := asts.getD i default
    let aj := asts.getD j default
    let s := if ai.nSize < aj.nSize then ai else aj
    let l := if ai.nSize < aj.nSize then aj else ai
    let si := if ai.nSize < aj.nSize then i else j
    let li := if ai.nSize < aj.nSize then j else i
    s.nSize < l.nSize ∧
    resolvePair asts i j =
      (asts.set li
        { l with vel := l.vel + ((s.nSize : ℚ) / (l.nSize : ℚ)) • (s.vel - l.vel) }).eraseIdx si ∧
    (resolvePair asts i j).length + 1 = asts.length ∧
    (resolvePair asts i j).getD (if si < li then li - 1 else li) default =
      { pos := l.pos,
        vel := l.vel + ((s.nSize : ℚ) / (l.nSize : ℚ)) • (s.vel - l.vel),
        nSize := l.nSize, rotateAngle := l.rotateAngle, tag := l.tag } := by
  intro ai aj s l si li
  have hi : i < asts.length := lt_trans hij hj
  by_cases hlt : ai.nSize < aj.nSize
  · have hsi : si = i := if_pos hlt
    have hli : li = j := if_pos hlt
    have hs : s = ai := if_pos hlt
    have hl : l = aj := if_pos hlt
    have hres : resolvePair asts i j =
        (asts.set li
          { l with vel := l.vel + ((s.nSize : ℚ) / (l.nSize : ℚ)) • (s.vel - l.vel) }).eraseIdx si := by
      simp only [resolvePair, hsi, hli, hs, hl, if_pos hlt]
    refine ⟨by rw [hs, hl]; exact hlt, hres, ?_, ?_⟩
    · rw [hres, hsi, hli]
      have hi' : i < (asts.set j
          { l with vel := l.vel + ((s.nSize : ℚ) / (l.nSize : ℚ)) • (s.vel - l.vel) }).length := by
        simpa using hi
      rw [List.length_eraseIdx_of_lt hi', List.length_set]
      omega
    · rw [hres, hsi, hli, if_pos hij]
      have hj1 : j - 1 + 1 = j := by omega
      rw [List.getD_eq_getElem?_getD, List.getElem?_eraseIdx_of_ge _ _ _ (by omega), hj1,
        List.getElem?_set_self (by simpa using hj)]
      rfl
  · have hlt' : aj.nSize < ai.nSize := lt_of_le_of_ne (not_lt.mp hlt) (Ne.symm hne)
    have hsi : si = j := if_neg hlt
    have hli : li = i := if_neg hlt
    have hs : s = aj := if_neg hlt
    have hl : l = ai := if_neg hlt
    have hres : resolvePair asts i j =
        (asts.set li
          { l with vel := l.vel + ((s.nSize : ℚ) / (l.nSize : ℚ)) • (s.vel - l.vel) }).eraseIdx si := by
      simp only [resolvePair, hsi, hli, hs, hl, if_neg hlt]
    refine ⟨by rw [hs, hl]; exact hlt', hres, ?_, ?_⟩
    · rw [hres, hsi, hli]
      have hj' : j < (asts.set i
          { l with vel := l.vel + ((s.nSize : ℚ) / (l.nSize : ℚ)) • (s.vel - l.vel) }).length := by
        simpa using hj
      rw [List.length_eraseIdx_of_lt hj', List.length_set]
      omega
    · rw [hres, hsi, hli, if_neg (by omega : ¬ j < i)]
      rw [List.getD_eq_getElem?_getD, List.getElem?_eraseIdx_of_lt _ _ _ hij,
        List.getElem?_set_self (by simpa using hi)]
      rfl

/-- Witness for `collision_absorbs_smaller`: slots 0 (size 10) and 1 (size 6)
collide; the size-6 body is absorbed and the size-10 body survives with the
blended velocity. -/
theorem collision_absorbs_smaller_witness :
    (resolvePair [⟨⟨10, 10⟩, ⟨1, 0⟩, 10, 0, 0⟩, ⟨⟨12, 10⟩, ⟨3, 0⟩, 6, 0, 1⟩] 0 1).length + 1 =
      ([⟨⟨10, 10⟩, ⟨1, 0⟩, 10, 0, 0⟩, ⟨⟨12, 10⟩, ⟨3, 0⟩, 6, 0, 1⟩] : List Transform).length ∧
    (resolvePair [⟨⟨10, 10⟩, ⟨1, 0⟩, 10, 0, 0⟩, ⟨⟨12, 10⟩, ⟨3, 0⟩, 6, 0, 1⟩] 0 1).getD 0 default =
      { pos := ⟨10, 10⟩, vel := (⟨1, 0⟩ : Vec2) + ((6 : ℚ) / (10 : ℚ)) • ((⟨3, 0⟩ : Vec2) - ⟨1, 0⟩),
        nSize := 10, rotateAngle := 0, tag := 0 } := by
  have h := collision_absorbs_smaller
    [⟨⟨10, 10⟩, ⟨1, 0⟩, 10, 0, 0⟩, ⟨⟨12, 10⟩, ⟨3, 0⟩, 6, 0, 1⟩] 0 1
    (by decide) (by decide) (by decide)
  exact ⟨h.2.2.1, h.2.2.2⟩

/-- Claim C10: when the two colliding asteroids have equal size, the strict
`<` comparison designates the pair's second slot `j` as the absorbed member:
the element at `j` is erased, the element at `i` survives at its slot and
receives the momentum blend, and every other element keeps its relative
order. -/
theorem equal_size_collision_absorbs_second (asts : List Transform) (i j : ℕ)
    (hij : i < j) (hj : j < asts.length)
    (heq : (asts.getD i default).nSize = (asts.getD j default).nSize) :
    let ai := asts.getD i default
    let aj := asts.getD j default
    resolvePair asts i j =
      (asts.set i
        { ai with vel := ai.vel + ((aj.nSize : ℚ) / (ai.nSize : ℚ)) • (aj.vel - ai.vel) }).eraseIdx j ∧
    (resolvePair asts i j).length + 1 = asts.length ∧
    (resolvePair asts i j).getD i default =
      { pos := ai.pos,
        vel := ai.vel + ((aj.nSize : ℚ) / (ai.nSize : ℚ)) • (aj.vel - ai.vel),
        nSize := ai.nSize, rotateAngle := ai.rotateAngle, tag := ai.tag } ∧
    ∀ k, k < asts.length - 1 → k ≠ i →
      (resolvePair asts i j).getD k default =
        asts.getD (if k < j then k else k + 1) default := by
  intro ai aj
  have hi : i < asts.length := lt_trans hij hj
  have hlt : ¬ ai.nSize < aj.nSize := by rw [heq]; exact lt_irrefl _
  have hres : resolvePair asts i j =
      (asts.set i
        { ai with vel := ai.vel + ((aj.nSize : ℚ) / (ai.nSize : ℚ)) • (aj.vel - ai.vel) }).eraseIdx j := by
    simp only [resolvePair, if_neg hlt]
  refine ⟨hres, ?_, ?_, ?_⟩
  · rw [hres]
    have hj' : j < (asts.set i
        { ai with vel := ai.vel + ((aj.nSize : ℚ) / (ai.nSize : ℚ)) • (aj.vel - ai.vel) }).length := by
      simpa using hj
    rw [List.length_eraseIdx_of_lt hj', List.length_set]
    omega
  · rw [hres]
    rw [List.getD_eq_getElem?_getD, List.getElem?_eraseIdx_of_lt _ _ _ hij,
      List.getElem?_set_self (by simpa using hi)]
    rfl
  · intro k hk hki
    rw [hres]
    by_cases hkj : k < j
    · rw [if_pos hkj, List.getD_eq_getElem?_getD,
        List.getElem?_eraseIdx_of_lt _ _ _ hkj,
        List.getElem?_set_ne (fun hik => hki hik.symm), List.getD_eq_getElem?_getD]
    · rw [if_neg hkj, List.getD_eq_getElem?_getD,
        List.getElem?_eraseIdx_of_ge _ _ _ (by omega),
        List.getElem?_set_ne (by omega : i ≠ k + 1), List.getD_eq_getElem?_getD]

/-- Witness for `equal_size_collision_absorbs_second`: three asteroids with
slots 0 and 1 of equal size 9; slot 1 is absorbed, slot 0 survives with the
blended velocity, slot 2 shifts down. -/
theorem equal_size_collision_absorbs_second_witness :
    (resolvePair
      [⟨⟨10, 10⟩, ⟨1, 0⟩, 9, 0, 0⟩, ⟨⟨12, 10⟩, ⟨3, 0⟩, 9, 0, 1⟩, ⟨⟨90, 90⟩, ⟨0, 1⟩, 12, 0, 2⟩] 0 1).getD 0 default =
      { pos := ⟨10, 10⟩, vel := (⟨1, 0⟩ : Vec2) + ((9 : ℚ) / (9 : ℚ)) • ((⟨3, 0⟩ : Vec2) - ⟨1, 0⟩),
        nSize := 9, rotateAngle := 0, tag := 0 } ∧
    (resolvePair
      [⟨⟨10, 10⟩, ⟨1, 0⟩, 9, 0, 0⟩, ⟨⟨12, 10⟩, ⟨3, 0⟩, 9, 0, 1⟩, ⟨⟨90, 90⟩, ⟨0, 1⟩, 12, 0, 2⟩] 0 1).getD 1 default =
      ([⟨⟨10, 10⟩, ⟨1, 0⟩, 9, 0, 0⟩, ⟨⟨12, 10⟩, ⟨3, 0⟩, 9, 0, 1⟩, ⟨⟨90, 90⟩, ⟨0, 1⟩, 12, 0, 2⟩] :
        List Transform).getD 2 default := by
  have h := equal_size_collision_absorbs_second
    [⟨⟨10, 10⟩, ⟨1, 0⟩, 9, 0, 0⟩, ⟨⟨12, 10⟩, ⟨3, 0⟩, 9, 0, 1⟩, ⟨⟨90, 90⟩, ⟨0, 1⟩, 12, 0, 2⟩] 0 1
    (by decide) (by decide) (by decide)
  refine ⟨h.2.2.1, ?_⟩
  have h2 := h.2.2.2 1 (by decide) (by decide)
  simpa using h2

theorem applyHit_snd (sv : Vec2 → ℤ → SplitKin) (b : Transform)
    (asts : List Transform) (i : ℕ) (hi : i < asts.length) :
    (applyHit sv b asts i).2 =
      asts.eraseIdx i ++
        (if asteroidSizeMin ≤ (asts.getD i default).nSize then
          [{ pos := (asts.getD i default).pos + (sv b.vel (asts.getD i default).nSize).offset1,
             vel := (sv b.vel (asts.getD i default).nSize).v1 + (asts.getD i default).vel,
             nSize := truncQ (((asts.getD i default).nSize : ℚ) / 2 + 1),
             rotateAngle := 0, tag := 0 },
           { pos := (asts.getD i default).pos + (sv b.vel (asts.getD i default).nSize).offset2,
             vel := (sv b.vel (asts.getD i default).nSize).v2 + (asts.getD i default).vel,
             nSize := truncQ (((asts.getD i default).nSize : ℚ) / 2 + 1),
             rotateAngle := 0, tag := 0 }]
        else []) := by
  by_cases hge : asteroidSizeMin ≤ (asts.getD i default).nSize
  · simp only [applyHit, if_pos hge]
    exact List.eraseIdx_append_of_lt_length hi _
  · simp only [applyHit, if_neg hge, List.append_nil]

theorem bulletScan_shape (sv : Vec2 → ℤ → SplitKin) (fuel : ℕ) (i checkSize : ℕ)
    (b : Transform) (asts : List Transform) :
    ((bulletScan sv fuel i checkSize b asts).2.1 = asts ∧
      (bulletScan sv fuel i checkSize b asts).2.2 = false) ∨
    (∃ k, i ≤ k ∧ k < checkSize ∧
      IsPointInsideCircle b.pos (asts.getD k default).pos
        ((asts.getD k default).nSize : ℚ) = true ∧
      (bulletScan sv fuel i checkSize b asts).2.1 = (applyHit sv b asts k).2 ∧
      (bulletScan sv fuel i checkSize b asts).2.2 = true) := by
  induction fuel generalizing i with
  | zero => exact Or.inl ⟨rfl, rfl⟩
  | succ fuel ih =>
    by_cases hgi : checkSize ≤ i
    · exact Or.inl ⟨by simp [bulletScan, hgi], by simp [bulletScan, hgi]⟩
    · by_cases hhit : IsPointInsideCircle b.pos ((asts.getD i default).pos)
        (((asts.getD i default).nSize : ℚ)) = true
      · exact Or.inr ⟨i, le_refl i, by omega, hhit,
          by simp [bulletScan, hgi, hhit, -List.getD_eq_getElem?_getD],
          by simp [bulletScan, hgi, hhit, -List.getD_eq_getElem?_getD]⟩
      · have heq : bulletScan sv (fuel + 1) i checkSize b asts =
            bulletScan sv fuel (i + 1) checkSize b asts := by
          simp [bulletScan, hgi, hhit, -List.getD_eq_getElem?_getD]
        rcases ih (i + 1) with hcase | ⟨k, hk1, hk2, hk3, hk4, hk5⟩
        · exact Or.inl (heq ▸ hcase)
        · exact Or.inr ⟨k, by omega, hk2, hk3, heq ▸ hk4, heq ▸ hk5⟩

theorem bulletScan_finds_hit (sv : Vec2 → ℤ → SplitKin) (checkSize : ℕ)
    (b : Transform) (asts : List Transform) (k : ℕ)
    (hkc : k < checkSize)
    (hhit : IsPointInsideCircle b.pos (asts.getD k default).pos
      ((asts.getD k default).nSize : ℚ) = true) :
    ∀ fuel i, i ≤ k → checkSize ≤ i + fuel →
      (bulletScan sv fuel i checkSize b asts).2.2 = true := by
  intro fuel
  induction fuel with
  | zero => intro i h1 h2; omega
  | succ fuel ih =>
    intro i h1 h2
    have hgi : ¬ checkSize ≤ i := by omega
    by_cases hi : IsPointInsideCircle b.pos ((asts.getD i default).pos)
        (((asts.getD i default).nSize : ℚ)) = true
    · simp [bulletScan, hgi, hi, -List.getD_eq_getElem?_getD]
    · have hne : i ≠ k := fun he => hi (he ▸ hhit)
      have heq : bulletScan sv (fuel + 1) i checkSize b asts =
          bulletScan sv fuel (i + 1) checkSize b asts := by
        simp [bulletScan, hgi, hi, -List.getD_eq_getElem?_getD]
      rw [heq]
      exact ih (i + 1) (by omega) (by omega)

/-- Claim C2: each bullet removes or splits at most one asteroid: its
resolution yields the original population with at most one slot erased (all
other originals kept in order) and at most two children appended; and when
some asteroid contains the bullet — even if several overlapping ones do —
the erase really happens, so exactly one asteroid is removed or split. -/
theorem bullet_hits_at_most_one_asteroid (sv : Vec2 → ℤ → SplitKin)
    (b : Transform) (asts : List Transform) :
    ∃ k cs, k ≤ asts.length ∧ List.length cs ≤ 2 ∧
      (bulletResolve sv b asts).2.1 = asts.eraseIdx k ++ cs ∧
      ((asts.any fun a => IsPointInsideCircle b.pos a.pos (a.nSize : ℚ)) = true →
        k < asts.length ∧ (bulletResolve sv b asts).2.2 = true) := by
  rcases bulletScan_shape sv asts.length 0 asts.length b asts with
    ⟨h1, h2⟩ | ⟨k, _, hk2, hk3, hk4, hk5⟩
  · refine ⟨asts.length, [], le_refl _, by simp, ?_, ?_⟩
    · rw [List.append_nil, List.eraseIdx_eq_self.mpr (le_refl _)]
      exact h1
    · intro hany
      exfalso
      rcases List.any_eq_true.mp hany with ⟨a, ha, hpa⟩
      rcases List.mem_iff_getElem.mp ha with ⟨m, hm, ham⟩
      have hgd : asts.getD m default = a := by
        rw [List.getD_eq_getElem?_getD, List.getElem?_eq_getElem hm, ham]
        rfl
      have htrue := bulletScan_finds_hit sv asts.length b asts m hm
        (by rw [hgd]; exact hpa) asts.length 0 (by omega) (by omega)
      rw [htrue] at h2
      exact Bool.true_eq_false.mp h2
  · refine ⟨k,
      if asteroidSizeMin ≤ (asts.getD k default).nSize then
        [{ pos := (asts.getD k default).pos + (sv b.vel (asts.getD k default).nSize).offset1,
           vel := (sv b.vel (asts.getD k default).nSize).v1 + (asts.getD k default).vel,
           nSize := truncQ (((asts.getD k default).nSize : ℚ) / 2 + 1),
           rotateAngle := 0, tag := 0 },
         { pos := (asts.getD k default).pos + (sv b.vel (asts.getD k default).nSize).offset2,
           vel := (sv b.vel (asts.getD k default).nSize).v2 + (asts.getD k default).vel,
           nSize := truncQ (((asts.getD k default).nSize : ℚ) / 2 + 1),
           rotateAngle := 0, tag := 0 }]
      else [], le_of_lt hk2, ?_, ?_, fun _ => ⟨hk2, hk5⟩⟩
    · split <;> simp
    · rw [show (bulletResolve sv b asts).2.1 = (applyHit sv b asts k).2 from hk4,
        applyHit_snd sv b asts k hk2]

/-- Witness for `bullet_hits_at_most_one_asteroid`: a bullet sitting inside
two overlapping asteroids (sizes 6 and 9, both containing the bullet's
position) removes exactly the first of them. -/
theorem bullet_hits_at_most_one_asteroid_witness :
    ∃ k cs, k ≤ ([⟨⟨50, 50⟩, ⟨0, 0⟩, 6, 0, 1⟩, ⟨⟨52, 50⟩, ⟨0, 0⟩, 9, 0, 2⟩] :
        List Transform).length ∧
      List.length cs ≤ 2 ∧
      (bulletResolve svZero ⟨⟨50, 50⟩, ⟨0, -50⟩, 0, 0, 9⟩
        [⟨⟨50, 50⟩, ⟨0, 0⟩, 6, 0, 1⟩, ⟨⟨52, 50⟩, ⟨0, 0⟩, 9, 0, 2⟩]).2.1 =
        ([⟨⟨50, 50⟩, ⟨0, 0⟩, 6, 0, 1⟩, ⟨⟨52, 50⟩, ⟨0, 0⟩, 9, 0, 2⟩] :
          List Transform).eraseIdx k ++ cs ∧
      ((([⟨⟨50, 50⟩, ⟨0, 0⟩, 6, 0, 1⟩, ⟨⟨52, 50⟩, ⟨0, 0⟩, 9, 0, 2⟩] :
          List Transform).any fun a =>
            IsPointInsideCircle (⟨50, 50⟩ : Vec2) a.pos (a.nSize : ℚ)) = true →
        k < ([⟨⟨50, 50⟩, ⟨0, 0⟩, 6, 0, 1⟩, ⟨⟨52, 50⟩, ⟨0, 0⟩, 9, 0, 2⟩] :
          List Transform).length ∧
        (bulletResolve svZero ⟨⟨50, 50⟩, ⟨0, -50⟩, 0, 0, 9⟩
          [⟨⟨50, 50⟩, ⟨0, 0⟩, 6, 0, 1⟩, ⟨⟨52, 50⟩, ⟨0, 0⟩, 9, 0, 2⟩]).2.2 = true) :=
  bullet_hits_at_most_one_asteroid svZero ⟨⟨50, 50⟩, ⟨0, -50⟩, 0, 0, 9⟩
    [⟨⟨50, 50⟩, ⟨0, 0⟩, 6, 0, 1⟩, ⟨⟨52, 50⟩, ⟨0, 0⟩, 9, 0, 2⟩]

/-- Claim C3 (refuting evaluation): a bullet hitting an asteroid of size
exactly 8 — the value of `asteroidSizeMin` — does NOT destroy it without
children: the source's split test is `a.nSize >= asteroidSizeMin`, so the
size-8 asteroid fissions into two children of size
`static_cast<int>(8 / 2. + 1) = 5` and the population afterwards has two
members, not zero.  The kinematics parameter `svUp` holds the exact split
vectors of this straight-up bullet (see `svUp_eq_splitChildData`). -/
theorem min_size_asteroid_still_splits :
    ((bulletResolve svUp ⟨⟨50, 50⟩, ⟨0, -50⟩, 0, 0, 9⟩
        [⟨⟨50, 50⟩, ⟨0, 0⟩, 8, 0, 1⟩]).2.1).map Transform.nSize = [5, 5] ∧
    ((bulletResolve svUp ⟨⟨50, 50⟩, ⟨0, -50⟩, 0, 0, 9⟩
        [⟨⟨50, 50⟩, ⟨0, 0⟩, 8, 0, 1⟩]).2.1).length = 2 := by
  norm_num [bulletResolve, bulletScan, applyHit, IsPointInsideCircle,
    IsCirclesCollided, svUp, truncQ, asteroidSizeMin, Vec2.add_def, Vec2.smul_def]

/-- Claim C3 (amended): the fission boundary sits at `asteroidSizeMin` with
the comparison `size ≥ asteroidSizeMin`: a hit asteroid of size exactly 8
fissions into two children of size 5, and destruction with no children
happens exactly for sizes strictly below `asteroidSizeMin`. -/
theorem split_boundary_at_size_min (sv : Vec2 → ℤ → SplitKin) (b : Transform)
    (asts : List Transform) (i : ℕ) (hi : i < asts.length) :
    ((asts.getD i default).nSize < asteroidSizeMin →
      (applyHit sv b asts i).2 = asts.eraseIdx i) ∧
    ((asts.getD i default).nSize = asteroidSizeMin →
      ((applyHit sv b asts i).2).map Transform.nSize =
        (asts.eraseIdx i).map Transform.nSize ++ [5, 5] ∧
      ((applyHit sv b asts i).2).length = asts.length + 1) := by
  constructor
  · intro hlt
    rw [applyHit_snd sv b asts i hi, if_neg (not_le.mpr hlt), List.append_nil]
  · intro heq
    have h5 : truncQ (((asts.getD i default).nSize : ℚ) / 2 + 1) = 5 := by
      rw [heq]
      norm_num [truncQ, asteroidSizeMin]
    rw [applyHit_snd sv b asts i hi, if_pos (le_of_eq heq.symm)]
    refine ⟨?_, ?_⟩
    · rw [List.map_append]
      simp [h5, -List.getD_eq_getElem?_getD]
    · rw [List.length_append, List.length_eraseIdx_of_lt hi]
      simp
      omega

/-- Witness for `split_boundary_at_size_min`: a size-5 asteroid vanishes with
no children, a size-8 asteroid leaves two size-5 children. -/
theorem split_boundary_at_size_min_witness :
    (applyHit svZero ⟨⟨0, 0⟩, ⟨0, -50⟩, 0, 0, 0⟩ [⟨⟨0, 0⟩, ⟨0, 0⟩, 5, 0, 0⟩] 0).2 =
      ([⟨⟨0, 0⟩, ⟨0, 0⟩, 5, 0, 0⟩] : List Transform).eraseIdx 0 ∧
    ((applyHit svZero ⟨⟨0, 0⟩, ⟨0, -50⟩, 0, 0, 0⟩ [⟨⟨0, 0⟩, ⟨0, 0⟩, 8, 0, 0⟩] 0).2).map
        Transform.nSize =
      (([⟨⟨0, 0⟩, ⟨0, 0⟩, 8, 0, 0⟩] : List Transform).eraseIdx 0).map Transform.nSize ++
        [5, 5] :=
  ⟨(split_boundary_at_size_min svZero ⟨⟨0, 0⟩, ⟨0, -50⟩, 0, 0, 0⟩
      [⟨⟨0, 0⟩, ⟨0, 0⟩, 5, 0, 0⟩] 0 (by decide)).1 (by decide),
   ((split_boundary_at_size_min svZero ⟨⟨0, 0⟩, ⟨0, -50⟩, 0, 0, 0⟩
      [⟨⟨0, 0⟩, ⟨0, 0⟩, 8, 0, 0⟩] 0 (by decide)).2 (by decide)).1⟩

theorem bulletScan_fst (sv : Vec2 → ℤ → SplitKin) (fuel : ℕ) (i checkSize : ℕ)
    (b : Transform) (asts : List Transform) :
    ((bulletScan sv fuel i checkSize b asts).2.2 = false →
      (bulletScan sv fuel i checkSize b asts).1 = b) ∧
    ((bulletScan sv fuel i checkSize b asts).2.2 = true →
      (bulletScan sv fuel i checkSize b asts).1 = { b with pos := ⟨-100, b.pos.y⟩ }) := by
  induction fuel generalizing i with
  | zero =>
    refine ⟨fun _ => rfl, fun hcon => ?_⟩
    exact absurd hcon (by simp [bulletScan])
  | succ fuel ih =>
    by_cases hgi : checkSize ≤ i
    · refine ⟨fun _ => by simp [bulletScan, hgi], fun hcon => absurd hcon ?_⟩
      simp [bulletScan, hgi]
    · by_cases hhit : IsPointInsideCircle b.pos ((asts.getD i default).pos)
        (((asts.getD i default).nSize : ℚ)) = true
      · refine ⟨fun hcon => absurd hcon ?_, fun _ => ?_⟩
        · simp [bulletScan, hgi, hhit, -List.getD_eq_getElem?_getD]
        · simp [bulletScan, hgi, hhit, applyHit, -List.getD_eq_getElem?_getD]
      · have heq : bulletScan sv (fuel + 1) i checkSize b asts =
            bulletScan sv fuel (i + 1) checkSize b asts := by
          simp [bulletScan, hgi, hhit, -List.getD_eq_getElem?_getD]
        rw [heq]
        exact ih (i + 1)

theorem bulletsPass_logs (sv : Vec2 → ℤ → SplitKin) (dt : ℚ)
    (bs : List Transform) :
    ∀ asts : List Transform, ∀ l ∈ (bulletsPass sv dt bs asts).1,
      (l.hit = false → l.proc = { l.orig with pos := l.orig.pos + dt • l.orig.vel }) ∧
      (l.hit = true → l.proc.pos.x = -100 ∧ l.proc.vel = l.orig.vel) := by
  induction bs with
  | nil => intro asts l hl; simp [bulletsPass] at hl
  | cons b rest ih =>
    intro asts l hl
    rw [bulletsPass] at hl
    rcases List.mem_cons.mp hl with hl | hl
    · subst hl
      have hb := bulletScan_fst sv asts.length 0 asts.length
        { b with pos := b.pos + dt • b.vel } asts
      refine ⟨fun hf => hb.1 hf, fun ht => ?_⟩
      have h1 := hb.2 ht
      constructor
      · show (bulletScan sv asts.length 0 asts.length
          { b with pos := b.pos + dt • b.vel } asts).1.pos.x = -100
        rw [h1]
      · show (bulletScan sv asts.length 0 asts.length
          { b with pos := b.pos + dt • b.vel } asts).1.vel = b.vel
        rw [h1]
    · exact ih _ l hl

/-- Claim C9: per frame every bullet advances by exactly `vel * dt` with no
wrap; the final bullet list is exactly the processed bullets filtered by the
on-screen test (a bullet is removed iff its position is off the playfield);
and a bullet that hit an asteroid was relocated to `x = -100` with its
velocity intact, hence is removed by that same prune. -/
theorem bullet_frame_advance_and_prune (sv : Vec2 → ℤ → SplitKin) (w h dt : ℚ)
    (bs asts : List Transform) :
    (bulletFrame sv w h dt bs asts).1 =
      ((bulletsPass sv dt bs asts).1.map BulletLog.proc).filter
        (fun b => ! bulletOffScreen w h b) ∧
    (∀ (bs2 : List Transform) (b : Transform),
      b ∈ pruneBullets w h bs2 ↔ b ∈ bs2 ∧ bulletOffScreen w h b = false) ∧
    ∀ l ∈ (bulletsPass sv dt bs asts).1,
      (l.hit = false → l.proc = { l.orig with pos := l.orig.pos + dt • l.orig.vel }) ∧
      (l.hit = true → l.proc.pos.x = -100 ∧ l.proc.vel = l.orig.vel ∧
        l.proc ∉ (bulletFrame sv w h dt bs asts).1) := by
  refine ⟨rfl, ?_, ?_⟩
  · intro bs2 b
    simp [pruneBullets, List.mem_filter]
  · intro l hl
    have hlog := bulletsPass_logs sv dt bs asts l hl
    refine ⟨hlog.1, fun ht => ?_⟩
    obtain ⟨hx, hv⟩ := hlog.2 ht
    refine ⟨hx, hv, fun hmem => ?_⟩
    have hoff : bulletOffScreen w h l.proc = true := by
      simp [bulletOffScreen, hx]
    have := (List.mem_filter.mp hmem).2
    rw [hoff] at this
    simp at this

/-- Witness for `bullet_frame_advance_and_prune`: one bullet with no asteroid
in range; its log entry records no hit and the frame prunes it after it flies
off the right edge. -/
theorem bullet_frame_advance_and_prune_witness :
    (bulletFrame svZero 160 100 1 [⟨⟨10, 10⟩, ⟨200, 0⟩, 0, 0, 0⟩] []).1 =
      ((bulletsPass svZero 1 [⟨⟨10, 10⟩, ⟨200, 0⟩, 0, 0, 0⟩] []).1.map
        BulletLog.proc).filter (fun b => ! bulletOffScreen 160 100 b) ∧
    ((⟨⟨210, 10⟩, ⟨200, 0⟩, 0, 0, 0⟩ : Transform) ∈
        pruneBullets 160 100 [⟨⟨210, 10⟩, ⟨200, 0⟩, 0, 0, 0⟩] ↔
      (⟨⟨210, 10⟩, ⟨200, 0⟩, 0, 0, 0⟩ : Transform) ∈
        ([⟨⟨210, 10⟩, ⟨200, 0⟩, 0, 0, 0⟩] : List Transform) ∧
      bulletOffScreen 160 100 ⟨⟨210, 10⟩, ⟨200, 0⟩, 0, 0, 0⟩ = false) :=
  ⟨(bullet_frame_advance_and_prune svZero 160 100 1
      [⟨⟨10, 10⟩, ⟨200, 0⟩, 0, 0, 0⟩] []).1,
   (bullet_frame_advance_and_prune svZero 160 100 1
      [⟨⟨10, 10⟩, ⟨200, 0⟩, 0, 0, 0⟩] []).2.1 _ _⟩

theorem truncQ_child_ge (sz : ℤ) (h : asteroidSizeMin ≤ sz) :
    5 ≤ truncQ ((sz : ℚ) / 2 + 1) ∧ truncQ ((sz : ℚ) / 2 + 1) < sz := by
  have h8 : (8 : ℚ) ≤ (sz : ℚ) := by
    have : (8 : ℤ) ≤ sz := h
    exact_mod_cast this
  have hq : (0 : ℚ) ≤ (sz : ℚ) / 2 + 1 := by linarith
  rw [truncQ, if_pos hq]
  constructor
  · rw [Int.le_floor]
    linarith
  · rw [Int.floor_lt]
    linarith

theorem splitChildData_eq (vx vy : ℝ) (hv : ¬(vx = 0 ∧ vy = 0)) (sz : ℤ) :
    (splitChildData vx vy sz).v1 =
      (((astroidSplitSpeed : ℚ) : ℝ) * vy / Real.sqrt (vx ^ 2 + vy ^ 2),
       -(((astroidSplitSpeed : ℚ) : ℝ) * vx / Real.sqrt (vx ^ 2 + vy ^ 2))) ∧
    (splitChildData vx vy sz).v2 =
      (-(((astroidSplitSpeed : ℚ) : ℝ) * vy / Real.sqrt (vx ^ 2 + vy ^ 2)),
       ((astroidSplitSpeed : ℚ) : ℝ) * vx / Real.sqrt (vx ^ 2 + vy ^ 2)) ∧
    (splitChildData vx vy sz).offset1 =
      (((sz : ℝ) / 2 + 1) * vy / Real.sqrt (vx ^ 2 + vy ^ 2),
       -(((sz : ℝ) / 2 + 1) * vx / Real.sqrt (vx ^ 2 + vy ^ 2))) ∧
    (splitChildData vx vy sz).offset2 =
      (-(((sz : ℝ) / 2 + 1) * vy / Real.sqrt (vx ^ 2 + vy ^ 2)),
       ((sz : ℝ) / 2 + 1) * vx / Real.sqrt (vx ^ 2 + vy ^ 2)) := by
  have hz : (⟨vx, -vy⟩ : ℂ) ≠ 0 := by
    intro hc
    rw [Complex.ext_iff] at hc
    exact hv ⟨hc.1, by simpa using hc.2⟩
  have habs : Complex.abs ⟨vx, -vy⟩ = Real.sqrt (vx ^ 2 + vy ^ 2) := by
    rw [Complex.abs_apply, Complex.normSq_mk]
    ring_nf
  have hcos : Real.cos (Complex.arg ⟨vx, -vy⟩) = vx / Real.sqrt (vx ^ 2 + vy ^ 2) := by
    rw [Complex.cos_arg hz, habs]
  have hsin : Real.sin (Complex.arg ⟨vx, -vy⟩) = -vy / Real.sqrt (vx ^ 2 + vy ^ 2) := by
    rw [Complex.sin_arg, habs]
  have hp : (0.5 : ℝ) * Real.pi = Real.pi / 2 := by ring
  refine ⟨?_, ?_, ?_, ?_⟩ <;>
    simp only [splitChildData, getAngleR, angleToVectorR] <;>
    rw [hp] <;>
    simp only [Real.cos_add, Real.sin_add, Real.cos_sub, Real.sin_sub,
      Real.cos_pi_div_two, Real.sin_pi_div_two, hcos, hsin, Prod.mk.injEq] <;>
    constructor <;> ring

/-- The abstract parameter `svUp` agrees with the real split kinematics at
the inputs it is used on: a bullet velocity of `(0, -50)` and parent size 8
give `divAngle = π/2`, launch vectors `(∓10, 0)` and offsets `(∓5, 0)`. -/
theorem svUp_eq_splitChildData :
    (splitChildData 0 (-50) 8).v1 = ((-10 : ℝ), 0) ∧
    (splitChildData 0 (-50) 8).v2 = ((10 : ℝ), 0) ∧
    (splitChildData 0 (-50) 8).offset1 = ((-5 : ℝ), 0) ∧
    (splitChildData 0 (-50) 8).offset2 = ((5 : ℝ), 0) := by
  have hm : Real.sqrt ((0 : ℝ) ^ 2 + (-50 : ℝ) ^ 2) = 50 := by
    rw [show ((0 : ℝ) ^ 2 + (-50 : ℝ) ^ 2) = 50 ^ 2 by norm_num,
      Real.sqrt_sq (by norm_num : (0 : ℝ) ≤ 50)]
  obtain ⟨h1, h2, h3, h4⟩ := splitChildData_eq 0 (-50) (by norm_num) 8
  rw [hm] at h1 h2 h3 h4
  refine ⟨?_, ?_, ?_, ?_⟩ <;>
    simp only [h1, h2, h3, h4, astroidSplitSpeed, Prod.mk.injEq] <;>
    norm_num

/-- Claim C4: a hit on an asteroid of size at or above `asteroidSizeMin`
appends exactly two children and erases the parent (population grows by
exactly 1); each child's size is the integer truncation of
`parent.size / 2 + 1`, strictly less than the parent's size; each child's
velocity is the parent's velocity plus its launch vector and its position is
the parent's center plus its offset; and the real kinematics launches the two
children perpendicular to the bullet's velocity (that is, at ±90° from its
angle) at exactly the split speed, in opposite directions, with the offsets
parallel to the launch directions and scaled by `parent.size / 2 + 1`. -/
theorem fission_two_children_perpendicular :
    (∀ (sv : Vec2 → ℤ → SplitKin) (b : Transform) (asts : List Transform) (i : ℕ),
      i < asts.length → asteroidSizeMin ≤ (asts.getD i default).nSize →
      (applyHit sv b asts i).2 =
        asts.eraseIdx i ++
          [{ pos := (asts.getD i default).pos + (sv b.vel (asts.getD i default).nSize).offset1,
             vel := (sv b.vel (asts.getD i default).nSize).v1 + (asts.getD i default).vel,
             nSize := truncQ (((asts.getD i default).nSize : ℚ) / 2 + 1),
             rotateAngle := 0, tag := 0 },
           { pos := (asts.getD i default).pos + (sv b.vel (asts.getD i default).nSize).offset2,
             vel := (sv b.vel (asts.getD i default).nSize).v2 + (asts.getD i default).vel,
             nSize := truncQ (((asts.getD i default).nSize : ℚ) / 2 + 1),
             rotateAngle := 0, tag := 0 }] ∧
      (applyHit sv b asts i).2.length = asts.length + 1 ∧
      truncQ (((asts.getD i default).nSize : ℚ) / 2 + 1) < (asts.getD i default).nSize) ∧
    (∀ (vx vy : ℝ) (sz : ℤ), ¬(vx = 0 ∧ vy = 0) →
      (splitChildData vx vy sz).v1.1 * vx + (splitChildData vx vy sz).v1.2 * vy = 0 ∧
      (splitChildData vx vy sz).v1.1 ^ 2 + (splitChildData vx vy sz).v1.2 ^ 2 =
        ((astroidSplitSpeed : ℚ) : ℝ) ^ 2 ∧
      (splitChildData vx vy sz).v2.1 = -(splitChildData vx vy sz).v1.1 ∧
      (splitChildData vx vy sz).v2.2 = -(splitChildData vx vy sz).v1.2 ∧
      (splitChildData vx vy sz).offset1.1 * ((astroidSplitSpeed : ℚ) : ℝ) =
        (splitChildData vx vy sz).v1.1 * ((sz : ℝ) / 2 + 1) ∧
      (splitChildData vx vy sz).offset1.2 * ((astroidSplitSpeed : ℚ) : ℝ) =
        (splitChildData vx vy sz).v1.2 * ((sz : ℝ) / 2 + 1) ∧
      (splitChildData vx vy sz).offset2.1 * ((astroidSplitSpeed : ℚ) : ℝ) =
        (splitChildData vx vy sz).v2.1 * ((sz : ℝ) / 2 + 1) ∧
      (splitChildData vx vy sz).offset2.2 * ((astroidSplitSpeed : ℚ) : ℝ) =
        (splitChildData vx vy sz).v2.2 * ((sz : ℝ) / 2 + 1)) := by
  constructor
  · intro sv b asts i hi hge
    refine ⟨?_, ?_, (truncQ_child_ge _ hge).2⟩
    · rw [applyHit_snd sv b asts i hi, if_pos hge]
    · rw [applyHit_snd sv b asts i hi, if_pos hge, List.length_append,
        List.length_eraseIdx_of_lt hi]
      simp only [List.length_cons, List.length_nil]
      omega
  · intro vx vy sz hv
    obtain ⟨h1, h2, h3, h4⟩ := splitChildData_eq vx vy hv sz
    have hsum : vx ^ 2 + vy ^ 2 ≠ 0 := by
      intro hc
      exact hv ⟨by nlinarith [sq_nonneg vx, sq_nonneg vy],
        by nlinarith [sq_nonneg vx, sq_nonneg vy]⟩
    have hm0 : Real.sqrt (vx ^ 2 + vy ^ 2) ≠ 0 := by
      rw [Real.sqrt_ne_zero']
      rcases lt_or_le 0 (vx ^ 2 + vy ^ 2) with hpos | hneg
      · exact hpos
      · exact absurd (le_antisymm hneg (by positivity)) hsum
    have hm2 : Real.sqrt (vx ^ 2 + vy ^ 2) ^ 2 = vx ^ 2 + vy ^ 2 :=
      Real.sq_sqrt (by positivity)
    rw [h1, h2, h3, h4]
    refine ⟨by ring, ?_, by ring, by ring, by ring, by ring, by ring, by ring⟩
    have hexp : (((astroidSplitSpeed : ℚ) : ℝ) * vy / Real.sqrt (vx ^ 2 + vy ^ 2)) ^ 2 +
        (-(((astroidSplitSpeed : ℚ) : ℝ) * vx / Real.sqrt (vx ^ 2 + vy ^ 2))) ^ 2 =
        ((astroidSplitSpeed : ℚ) : ℝ) ^ 2 *
          ((vx ^ 2 + vy ^ 2) / Real.sqrt (vx ^ 2 + vy ^ 2) ^ 2) := by
      ring
    rw [hexp, hm2, div_self hsum, mul_one]

/-- Witness for `fission_two_children_perpendicular`: a size-8 parent hit by
a straight-up bullet yields a population of two, and the real launch vector
of that bullet is perpendicular to its velocity. -/
theorem fission_two_children_perpendicular_witness :
    (applyHit svZero ⟨⟨50, 50⟩, ⟨0, -50⟩, 0, 0, 9⟩
      [⟨⟨50, 50⟩, ⟨0, 0⟩, 8, 0, 1⟩] 0).2.length =
      ([⟨⟨50, 50⟩, ⟨0, 0⟩, 8, 0, 1⟩] : List Transform).length + 1 ∧
    (splitChildData 0 (-50) 8).v1.1 * 0 + (splitChildData 0 (-50) 8).v1.2 * (-50) = 0 :=
  ⟨((fission_two_children_perpendicular.1 svZero ⟨⟨50, 50⟩, ⟨0, -50⟩, 0, 0, 9⟩
      [⟨⟨50, 50⟩, ⟨0, 0⟩, 8, 0, 1⟩] 0 (by decide) (by decide)).2.1),
   (fission_two_children_perpendicular.2 0 (-50) 8 (by norm_num)).1⟩

theorem sizeLB_eraseIdx (asts : List Transform) (k : ℕ) (h : sizeLB asts) :
    sizeLB (asts.eraseIdx k) :=
  fun a ha => h a ((List.eraseIdx_sublist asts k).mem ha)

theorem sizeLB_set_getD (asts : List Transform) (i : ℕ) (f : Transform → Transform)
    (hf : ∀ t, (f t).nSize = t.nSize) (h : sizeLB asts) :
    sizeLB (asts.set i (f (asts.getD i default))) := by
  intro aa haa
  by_cases hL : i < asts.length
  · rcases List.mem_or_eq_of_mem_set haa with hmem | heq
    · exact h aa hmem
    · subst heq
      rw [hf]
      refine h _ ?_
      rw [List.getD_eq_getElem?_getD, List.getElem?_eq_getElem hL, Option.getD_some]
      exact List.getElem_mem hL
  · rw [List.set_eq_of_length_le (le_of_not_lt hL)] at haa
    exact h aa haa

theorem resolvePair_sizeLB (asts : List Transform) (i j : ℕ) (h : sizeLB asts) :
    sizeLB (resolvePair asts i j) := by
  simp only [resolvePair]
  exact sizeLB_eraseIdx _ _ (sizeLB_set_getD _ _
    (fun t => { t with vel := t.vel +
      (((asts.getD (if (asts.getD i default).nSize < (asts.getD j default).nSize then i
          else j) default).nSize : ℚ) / (t.nSize : ℚ)) •
        ((asts.getD (if (asts.getD i default).nSize < (asts.getD j default).nSize then i
          else j) default).vel - t.vel) })
    (fun _ => rfl) h)

theorem innerScan_sizeLB (fuel : ℕ) :
    ∀ (i j ls : ℕ) (asts : List Transform) (t : List (ℕ × ℕ)),
      sizeLB asts → sizeLB (innerScan fuel i j ls asts t).1 := by
  induction fuel with
  | zero => intro i j ls asts t h; exact h
  | succ fuel ih =>
    intro i j ls asts t h
    simp only [innerScan]
    split
    · exact h
    · split
      · exact ih _ _ _ _ _ (resolvePair_sizeLB _ _ _ h)
      · exact ih _ _ _ _ _ h

theorem outerScan_sizeLB (w hh dt : ℚ) (fuel : ℕ) :
    ∀ (i ls : ℕ) (asts : List Transform) (t : List (ℕ × ℕ)),
      sizeLB asts → sizeLB (outerScan w hh dt fuel i ls asts t).1 := by
  induction fuel with
  | zero => intro i ls asts t h; exact h
  | succ fuel ih =>
    intro i ls asts t h
    simp only [outerScan]
    split
    · exact h
    · refine ih _ _ _ _ (innerScan_sizeLB _ _ _ _ _ _ ?_)
      exact sizeLB_set_getD _ _
        (fun a => { a with pos := WrapCoordinates w hh (a.pos + dt • a.vel) })
        (fun _ => rfl) h

theorem applyHit_sizeLB (sv : Vec2 → ℤ → SplitKin) (b : Transform)
    (asts : List Transform) (i : ℕ) (h : sizeLB asts) :
    sizeLB (applyHit sv b asts i).2 := by
  simp only [applyHit]
  refine sizeLB_eraseIdx _ _ ?_
  split
  · rename_i hge
    intro aa haa
    rcases List.mem_append.mp haa with hmem | hmem
    · exact h aa hmem
    · rcases List.mem_cons.mp hmem with he | hmem2
      · subst he; exact (truncQ_child_ge _ hge).1
      · rcases List.mem_cons.mp hmem2 with he | hmem3
        · subst he; exact (truncQ_child_ge _ hge).1
        · simp at hmem3
  · exact h

theorem bulletScan_sizeLB (sv : Vec2 → ℤ → SplitKin) (fuel : ℕ) :
    ∀ (i cs : ℕ) (b : Transform) (asts : List Transform),
      sizeLB asts → sizeLB (bulletScan sv fuel i cs b asts).2.1 := by
  induction fuel with
  | zero => intro i cs b asts h; exact h
  | succ fuel ih =>
    intro i cs b asts h
    simp only [bulletScan]
    split
    · exact h
    · split
      · exact applyHit_sizeLB sv b asts i h
      · exact ih _ _ _ _ h

theorem bulletsPass_sizeLB (sv : Vec2 → ℤ → SplitKin) (dt : ℚ)
    (bs : List Transform) :
    ∀ asts : List Transform, sizeLB asts → sizeLB (bulletsPass sv dt bs asts).2 := by
  induction bs with
  | nil => intro asts h; exact h
  | cons b rest ih =>
    intro asts h
    simp only [bulletsPass]
    exact ih _ (bulletScan_sizeLB sv _ _ _ _ _ h)

/-- Claim C6: in every reachable asteroid population every member has size at
least 5 — hence strictly positive and a nonzero divisor in the momentum
blend; moreover every seeded size is at least `asteroidSizeMin` (8) and every
fission child of a splittable parent (size at least 8) has size at least 5. -/
theorem reachable_sizes_positive :
    (∀ asts, Reachable asts → ∀ a ∈ asts, 5 ≤ a.nSize ∧ 0 < a.nSize ∧ (a.nSize : ℚ) ≠ 0) ∧
    (∀ r : ℚ, 0 ≤ r → r < 1 → asteroidSizeMin ≤ seedSize r) ∧
    (∀ sz : ℤ, asteroidSizeMin ≤ sz → 5 ≤ truncQ ((sz : ℚ) / 2 + 1)) := by
  have hseed : ∀ r : ℚ, 0 ≤ r → asteroidSizeMin ≤ seedSize r := by
    intro r hr
    have h0 : 0 ≤ truncQ (r * ((asteroidSizeMax - asteroidSizeMin : ℤ) : ℚ)) := by
      have hnn : (0 : ℚ) ≤ r * ((asteroidSizeMax - asteroidSizeMin : ℤ) : ℚ) := by
        apply mul_nonneg hr
        norm_num [asteroidSizeMax, asteroidSizeMin]
      rw [truncQ, if_pos hnn]
      exact Int.floor_nonneg.mpr hnn
    unfold seedSize
    omega
  have hmain : ∀ asts, Reachable asts → sizeLB asts := by
    intro asts hr
    induction hr with
    | seed asts h =>
      intro a ha
      obtain ⟨r, hr0, _, hsz⟩ := h a ha
      have h8 := hseed r hr0
      rw [hsz]
      unfold asteroidSizeMin at h8
      omega
    | scan w hh dt asts hr ih => exact outerScan_sizeLB w hh dt _ _ _ _ _ ih
    | shoot sv w hh dt bs asts hr ih => exact bulletsPass_sizeLB sv dt bs asts ih
  refine ⟨fun asts hr a ha => ?_, fun r h0 _ => hseed r h0,
    fun sz hsz => (truncQ_child_ge sz hsz).1⟩
  have h5 := hmain asts hr a ha
  refine ⟨h5, by omega, ?_⟩
  have hpos : (0 : ℤ) < a.nSize := by omega
  exact_mod_cast hpos.ne'

/-- Witness for `reachable_sizes_positive`: a population seeded with the draw
`r = 1/2` holds one asteroid of size 19, which is at least 5, positive, and a
nonzero rational divisor. -/
theorem reachable_sizes_positive_witness :
    5 ≤ (⟨⟨0, 0⟩, ⟨0, 0⟩, 19, 0, 0⟩ : Transform).nSize ∧
    0 < (⟨⟨0, 0⟩, ⟨0, 0⟩, 19, 0, 0⟩ : Transform).nSize ∧
    (((⟨⟨0, 0⟩, ⟨0, 0⟩, 19, 0, 0⟩ : Transform).nSize : ℚ)) ≠ 0 := by
  have hre : Reachable [⟨⟨0, 0⟩, ⟨0, 0⟩, 19, 0, 0⟩] := by
    refine Reachable.seed _ ?_
    intro a ha
    refine ⟨1 / 2, by norm_num, by norm_num, ?_⟩
    rcases List.mem_singleton.mp ha with rfl
    norm_num [seedSize, truncQ, asteroidSizeMax, asteroidSizeMin]
  exact reachable_sizes_positive.1 _ hre _ (List.mem_singleton.mpr rfl)

end Asteroids
